/-
Verification of the line-tokenizer / brick-layout and Breakout-simulation core
of `code_break_ida.py`.

Shallow embedding conventions:
* Python floats are modelled as rationals (`ℚ`); the float literals `3.8` and
  `-4.6` become `19/5` and `-(23/5)`.
* Python ints are `ℤ` (or `ℕ` where the source value is a Qt width/height/font
  metric, which is non-negative).
* `QRectF.intersects` and `QRectF.contains` are modelled after Qt's sources:
  both normalise negative extents, report `false` for empty rects, use strict
  inequalities for overlap and closed bounds for containment.
* The regex `LINE_SPLIT_RE = re.compile(r"\S+|\s+")` used via `findall` tiles a
  line into maximal runs of non-whitespace / whitespace characters; it is
  modelled by the fueled splitter `tokenizeAux` below.
* Host-dependent inputs (IDA lines, Qt font metrics, widget size, fresh bricks
  produced by `reload_bricks`) are parameters of the corresponding functions.
-/
import Mathlib

/- The Batteries rational-number operations are `irreducible` by default, which
would prevent `decide`/`rfl` from evaluating the model on concrete inputs;
restore the ordinary reducibility for this file. -/
attribute [local semireducible] Rat.add Rat.mul Rat.sub Rat.inv

namespace CodeBreak

/-- Python's `\s` character class (Unicode whitespace), as used by
`LINE_SPLIT_RE = re.compile(r"\S+|\s+")` and by `str.strip()`. -/
def pyIsSpace (c : Char) : Bool :=
  decide (c.toNat = 32 ∨ (9 ≤ c.toNat ∧ c.toNat ≤ 13) ∨ (28 ≤ c.toNat ∧ c.toNat ≤ 31) ∨
    c.toNat = 133 ∨ c.toNat = 160 ∨ c.toNat = 0x1680 ∨
    (0x2000 ≤ c.toNat ∧ c.toNat ≤ 0x200a) ∨ c.toNat = 0x2028 ∨ c.toNat = 0x2029 ∨
    c.toNat = 0x202f ∨ c.toNat = 0x205f ∨ c.toNat = 0x3000)

/-- `re.findall(r"\S+|\s+", line)`: repeatedly take the maximal run of
characters of the same class (`p`-value) as the first remaining character.
The fuel argument (instantiated with the length of the list) only serves to
make the recursion structural. -/
def tokenizeAux (p : Char → Bool) : ℕ → List Char → List (List Char)
  | _, [] => []
  | 0, _ :: _ => []
  | fuel + 1, c :: cs =>
      (c :: cs.takeWhile (fun d => p d == p c)) ::
        tokenizeAux p fuel (cs.dropWhile (fun d => p d == p c))

/-- `LINE_SPLIT_RE.findall` on a list of characters. -/
def tokenize (l : List Char) : List (List Char) :=
  tokenizeAux pyIsSpace l.length l

/-- `LINE_SPLIT_RE.findall(full_line)` as a list of strings. -/
def strTokens (s : String) : List String :=
  (tokenize s.data).map String.mk

/-- Truthiness of `part.strip()`: the token contains a non-whitespace char. -/
def tokenVisible (t : String) : Bool :=
  t.data.any (fun c => !(pyIsSpace c))

/-- `_rotate_items_from_anchor(items, anchor_idx, limit)`:
empty input gives `[]`; an out-of-bounds anchor is replaced by `0`; then the
first `min(limit, n)` elements are read cyclically starting at the anchor.
(`range` of a negative Python int is empty, hence `.toNat`.) -/
def rotateItemsFromAnchor {α : Type} (items : List α) (anchorIdx limit : ℤ) : List α :=
  match items with
  | [] => []
  | x :: xs =>
    let n : ℤ := ((x :: xs).length : ℤ)
    let a : ℤ := if anchorIdx < 0 ∨ n ≤ anchorIdx then 0 else anchorIdx
    (List.range (min limit n).toNat).map
      (fun (i : ℕ) => (x :: xs).getD ((a + (i : ℤ)) % n).toNat x)

/-- An axis-aligned rectangle with `QRectF` semantics (x, y, width, height). -/
structure Rect where
  x : ℚ
  y : ℚ
  w : ℚ
  h : ℚ
deriving DecidableEq

/-- Qt's per-axis normalisation of an interval given by origin and (possibly
negative) extent: the resulting pair is `(low, high)`. -/
def spanOf (x w : ℚ) : ℚ × ℚ :=
  if w < 0 then (x + w, x) else (x, x + w)

/-- `QRectF.intersects`: normalise negative extents, empty rects never
intersect, overlap is strict (Qt returns `false` as soon as one of the
early-out tests fires; the conjunction below is that same cascade). -/
def Rect.intersects (a b : Rect) : Bool :=
  let sx1 := spanOf a.x a.w
  let sx2 := spanOf b.x b.w
  let sy1 := spanOf a.y a.h
  let sy2 := spanOf b.y b.h
  decide (¬(sx1.1 = sx1.2 ∨ sx2.1 = sx2.2) ∧ ¬(sx2.2 ≤ sx1.1 ∨ sx1.2 ≤ sx2.1) ∧
          ¬(sy1.1 = sy1.2 ∨ sy2.1 = sy2.2) ∧ ¬(sy2.2 ≤ sy1.1 ∨ sy1.2 ≤ sy2.1))

/-- `QRectF.contains(QPointF)`: empty rects contain nothing, bounds closed
(again Qt's early-out cascade written as one conjunction). -/
def Rect.containsPoint (r : Rect) (p : ℚ × ℚ) : Bool :=
  let sx := spanOf r.x r.w
  let sy := spanOf r.y r.h
  decide (¬(sx.1 = sx.2) ∧ ¬(p.1 < sx.1 ∨ sx.2 < p.1) ∧
          ¬(sy.1 = sy.2) ∧ ¬(p.2 < sy.1 ∨ sy.2 < p.2))

/-- One entry of `self.brick_labels` (the dict's `label` field always equals
`full_text` and is not read by `_build_bricks`, so it is omitted). -/
structure LineInfo where
  lineNo : ℕ
  fullText : String
deriving DecidableEq

/-- One entry of `self.render_lines`. -/
structure RenderLine where
  lineNo : ℕ
  yBase : ℤ
deriving DecidableEq

/-- One brick dict (the render-only `draw_x`/`draw_y` fields are omitted;
`draw_x = rect.x` and `draw_y = rect.y + ascent` by construction). -/
structure Brick where
  rect : Rect
  label : String
  fullText : String
  lineNo : ℕ
  alive : Bool
deriving DecidableEq

/-- Sum of the cursor advances `max(1, fm.horizontalAdvance(part))` over a
token list. -/
def sumAdv (adv : String → ℤ) (ts : List String) : ℤ :=
  (ts.map (fun t => max 1 (adv t))).sum

/-- The inner token loop of `_build_bricks` for one line: starting from cursor
`x`, each token advances the cursor by `max(1, adv t)`; a token that would
cross `codeRight` stops the line (it is not emitted); non-whitespace tokens
are emitted as bricks with rect `(x, yTop, max(6, part_w), lineH)`. -/
def lineBricks (adv : String → ℤ) (codeRight : ℤ) (lineNo : ℕ) (fullText : String)
    (yTop : ℤ) (lineH : ℕ) : ℤ → List String → List Brick
  | _, [] => []
  | x, t :: ts =>
    let pw : ℤ := max 1 (adv t)
    if codeRight < x + pw then []
    else
      (if tokenVisible t then
        [{ rect := { x := (x : ℚ), y := (yTop : ℚ), w := ((max 6 pw : ℤ) : ℚ),
                     h := (lineH : ℚ) },
           label := t, fullText := fullText, lineNo := lineNo, alive := true }]
      else []) ++ lineBricks adv codeRight lineNo fullText yTop lineH (x + pw) ts

/-- `_build_bricks`, parameterised by the widget size `w × h`, the font
metrics (`fm.height()`, `fm.ascent()`, `fm.horizontalAdvance`) and
`self.brick_labels`.  Returns `(self.bricks, self.render_lines)`. -/
def buildBricks (w h fmHeight fmAscent : ℕ) (adv : String → ℤ)
    (labels : List LineInfo) : List Brick × List RenderLine :=
  let wq : ℕ := max 640 w
  let hq : ℕ := max 360 h
  let codeRight : ℤ := (wq : ℤ) - 18
  let lineH : ℕ := max 16 (fmHeight + 2)
  let maxVisible : ℕ := max 1 ((hq - 64 - 70) / lineH)
  let rows := (labels.take maxVisible).enum
  (rows.flatMap (fun pr =>
      lineBricks adv codeRight pr.2.lineNo pr.2.fullText
        ((64 : ℤ) + (pr.1 : ℤ) * (lineH : ℤ)) lineH 70 (strTokens pr.2.fullText)),
   rows.map (fun pr =>
      { lineNo := pr.2.lineNo, yBase := (64 : ℤ) + (pr.1 : ℤ) * (lineH : ℤ) + (fmAscent : ℤ) }))

/-- `_find_hover_brick`: the first brick in iteration order that is alive and
whose rect contains the point. -/
def findHoverBrick (bricks : List Brick) (p : ℚ × ℚ) : Option Brick :=
  bricks.find? (fun b => b.alive && b.rect.containsPoint p)

/-- The per-brick test of the collision loop in `_tick`. -/
def hitB (brect : Rect) (b : Brick) : Bool :=
  b.alive && brect.intersects b.rect

/-- The brick-collision loop of `_tick`: scan in iteration order; at the first
alive intersecting brick, kill it, add 10 to the score, negate `vy`, and stop. -/
def brickLoop (brect : Rect) (score : ℤ) (vy : ℚ) : List Brick → List Brick × ℤ × ℚ
  | [] => ([], score, vy)
  | b :: bs =>
    if hitB brect b then
      ({ b with alive := false } :: bs, score + 10, -vy)
    else
      let r := brickLoop brect score vy bs
      (b :: r.1, r.2)

/-- The mutable simulation state of `CodeBreakWidget` (rendering-only fields
such as `render_lines` and `_hover_text` are omitted). -/
structure SimState where
  paddleW : ℚ
  paddleH : ℚ
  paddleSpeed : ℚ
  paddleX : ℚ
  ballR : ℚ
  ballX : ℚ
  ballY : ℚ
  ballVx : ℚ
  ballVy : ℚ
  leftPressed : Bool
  rightPressed : Bool
  launched : Bool
  gameOver : Bool
  score : ℤ
  lives : ℤ
  bricks : List Brick
deriving DecidableEq

/-- `_reset_ball_on_paddle` (note: it clamps with the *raw* widget width and
uses `max(300, height)`, unlike `_tick` which uses `max(640, _)`/`max(360, _)`). -/
def resetBallOnPaddle (w h : ℕ) (s : SimState) : SimState :=
  let hq : ℚ := max 300 (h : ℚ)
  let px : ℚ := max 10 (min s.paddleX ((w : ℚ) - s.paddleW - 10))
  { s with paddleX := px,
           ballX := px + s.paddleW / 2,
           ballY := hq - 42,
           ballVx := 19/5,
           ballVy := -(23/5),
           launched := false }

/-- The paddle-input step at the top of `_tick`: apply held keys, then clamp
to `[10, max(640, w) - paddle_w - 10]`. -/
def paddlePhase (w : ℕ) (s : SimState) : SimState :=
  let wq : ℚ := max 640 (w : ℚ)
  let px1 : ℚ := if s.leftPressed then s.paddleX - s.paddleSpeed else s.paddleX
  let px2 : ℚ := if s.rightPressed then px1 + s.paddleSpeed else px1
  { s with paddleX := max 10 (min px2 (wq - s.paddleW - 10)) }

/-- The in-play physics of `_tick` up to (and excluding) the level-clear
check: integrate the ball, reflect at the left/right/top walls, resolve the
paddle bounce, and run the brick-collision loop. -/
def physicsCore (w h : ℕ) (s : SimState) : SimState :=
  let wq : ℚ := max 640 (w : ℚ)
  let hq : ℚ := max 360 (h : ℚ)
  let bx0 : ℚ := s.ballX + s.ballVx
  let by0 : ℚ := s.ballY + s.ballVy
  let p1 : ℚ × ℚ := if bx0 - s.ballR ≤ 0 then (s.ballR, -s.ballVx) else (bx0, s.ballVx)
  let p2 : ℚ × ℚ := if wq ≤ p1.1 + s.ballR then (wq - s.ballR, -p1.2) else p1
  let q1 : ℚ × ℚ := if by0 - s.ballR ≤ 0 then (s.ballR, -s.ballVy) else (by0, s.ballVy)
  let paddleRect : Rect := { x := s.paddleX, y := hq - 30, w := s.paddleW, h := s.paddleH }
  let ballRect0 : Rect :=
    { x := p2.1 - s.ballR, y := q1.1 - s.ballR, w := 2 * s.ballR, h := 2 * s.ballR }
  let t3 : ℚ × ℚ × ℚ :=
    if ballRect0.intersects paddleRect = true ∧ 0 < q1.2 then
      (hq - 30 - s.ballR, -(abs q1.2), ((p2.1 - s.paddleX) / s.paddleW - 1/2) * 10)
    else (q1.1, q1.2, p2.2)
  let brect : Rect :=
    { x := p2.1 - s.ballR, y := t3.1 - s.ballR, w := 2 * s.ballR, h := 2 * s.ballR }
  let scan := brickLoop brect s.score t3.2.1 s.bricks
  { s with ballX := p2.1, ballY := t3.1, ballVx := t3.2.2, ballVy := scan.2.2,
           score := scan.2.1, bricks := scan.1 }

/-- The in-play physics of `_tick` including the level-clear check: when the
brick list is non-empty with no brick alive, substitute the `fresh` brick set
and reset the ball on the paddle (`reload_bricks`). -/
def physicsPhase (w h : ℕ) (fresh : List Brick) (s : SimState) : SimState :=
  let s2 := physicsCore w h s
  if s2.bricks ≠ [] ∧ s2.bricks.any (fun b => b.alive) = false then
    resetBallOnPaddle w h { s2 with bricks := fresh }
  else s2

/-- The bottom-fall check at the end of `_tick`. -/
def bottomPhase (w h : ℕ) (s : SimState) : SimState :=
  let hq : ℚ := max 360 (h : ℚ)
  if s.ballY - s.ballR > hq then
    let lives1 : ℤ := s.lives - 1
    if lives1 ≤ 0 then { s with lives := lives1, gameOver := true, launched := false }
    else resetBallOnPaddle w h { s with lives := lives1 }
  else s

/-- `_tick`, with the widget size and the brick set a `reload_bricks` call
would install as parameters. -/
def tick (w h : ℕ) (fresh : List Brick) (s : SimState) : SimState :=
  let s1 := paddlePhase w s
  if s1.launched = false ∧ s1.gameOver = false then
    { s1 with ballX := s1.paddleX + s1.paddleW / 2, ballY := max 360 (h : ℚ) - 42 }
  else if s1.gameOver = true then s1
  else bottomPhase w h (physicsPhase w h fresh s1)

/-- A sequence of ticks; before each tick the held-key flags are set to the
step's values and the step's fresh brick set is supplied. -/
def runTicks (w h : ℕ) : SimState → List (Bool × Bool × List Brick) → SimState
  | s, [] => s
  | s, step :: rest =>
      runTicks w h
        (tick w h step.2.2 { s with leftPressed := step.1, rightPressed := step.2.1 }) rest

/-- A concrete in-play state used to exercise the bottom-fall transition with
two lives left: the ball is at `(50, 600)` moving straight down, away from the
paddle and every wall, with no bricks. -/
def sDrop2 : SimState :=
  { paddleW := 130, paddleH := 12, paddleSpeed := 9, paddleX := 300, ballR := 7,
    ballX := 50, ballY := 600, ballVx := 0, ballVy := 10, leftPressed := false,
    rightPressed := false, launched := true, gameOver := false, score := 0,
    lives := 2, bricks := [] }

/-- The same falling state with a single life left. -/
def sDrop1 : SimState :=
  { sDrop2 with lives := 1 }

/-- A concrete game-over state with the left key held. -/
def sOver : SimState :=
  { sDrop2 with gameOver := true, launched := false, leftPressed := true, lives := 0 }

/-- A concrete in-play state used to exercise the paddle clamp. -/
def sPad : SimState :=
  { sDrop2 with paddleX := 15, ballY := 100, ballVy := -1, lives := 3 }

/-- A concrete ball rectangle used to exercise the brick-collision loop. -/
def rectC3 : Rect := { x := 0, y := 0, w := 10, h := 10 }

/-- A live brick overlapping `rectC3`, first in iteration order. -/
def bA : Brick :=
  { rect := { x := 5, y := 5, w := 10, h := 10 }, label := "a", fullText := "a",
    lineNo := 1, alive := true }

/-- A second live brick also overlapping `rectC3`. -/
def bB : Brick :=
  { rect := { x := 6, y := 6, w := 10, h := 10 }, label := "b", fullText := "b",
    lineNo := 1, alive := true }

/-- A dead brick whose rectangle contains the probe point `(6, 6)`. -/
def bDead : Brick :=
  { rect := { x := 0, y := 0, w := 10, h := 10 }, label := "x", fullText := "x",
    lineNo := 1, alive := false }

/-- The single brick produced by `buildBricks 800 520 12 10 (fun _ => 2)` on
the one-line label list `[(1, "ab")]`. -/
def bTok : Brick :=
  { rect := { x := 70, y := 64, w := 6, h := 16 }, label := "ab", fullText := "ab",
    lineNo := 1, alive := true }

end CodeBreak

namespace CodeBreak

/-- C1 (counterexample): the unrestricted rotation law fails for an
out-of-bounds anchor.  With `items = [10, 20]`, `anchor_index = 5` and
`max_lines = 2` the code clamps the anchor to `0` and returns `[10, 20]`,
whereas the element at position `(5 + 0) mod 2 = 1` is `20`. -/
theorem rotate_rotation_law_cex :
    (rotateItemsFromAnchor ([10, 20] : List ℕ) 5 2)[0]? ≠
      ([10, 20] : List ℕ)[((5 + ((0 : ℕ) : ℤ)) % (([10, 20] : List ℕ).length : ℤ)).toNat]? := by
  decide

/-- C1 (amended): for a non-empty list and an **in-range** anchor
`0 ≤ a < L`, `_rotate_items_from_anchor` returns `toNat (min max_lines L)`
entries (which is `min max_lines L` whenever `max_lines ≥ 0`), and the `i`-th
entry is the element at position `(a + i) mod L` of the input. -/
theorem rotate_rotation_law {α : Type} (items : List α) (a limit : ℤ)
    (h0 : 0 ≤ a) (h1 : a < (items.length : ℤ)) :
    (rotateItemsFromAnchor items a limit).length = (min limit (items.length : ℤ)).toNat ∧
    ∀ i : ℕ, i < (min limit (items.length : ℤ)).toNat →
      (rotateItemsFromAnchor items a limit)[i]? =
        items[((a + (i : ℤ)) % (items.length : ℤ)).toNat]? := by
  match items with
  | [] =>
    simp only [List.length_nil, Nat.cast_zero] at h1
    omega
  | x :: xs =>
    have hcond : ¬(a < 0 ∨ ((x :: xs).length : ℤ) ≤ a) := by
      push_neg
      exact ⟨h0, h1⟩
    have hpos : (0 : ℤ) < ((x :: xs).length : ℤ) := by
      exact_mod_cast Nat.succ_pos xs.length
    constructor
    · simp only [rotateItemsFromAnchor, if_neg hcond, List.length_map, List.length_range]
    · intro i hi
      have hk0 : (0 : ℤ) ≤ (a + (i : ℤ)) % ((x :: xs).length : ℤ) :=
        Int.emod_nonneg _ (ne_of_gt hpos)
      have hk1 : (a + (i : ℤ)) % ((x :: xs).length : ℤ) < ((x :: xs).length : ℤ) :=
        Int.emod_lt_of_pos _ hpos
      have hk : ((a + (i : ℤ)) % ((x :: xs).length : ℤ)).toNat < (x :: xs).length := by
        omega
      simp only [rotateItemsFromAnchor, if_neg hcond]
      rw [List.getElem?_map, List.getElem?_range hi, Option.map_some']
      rw [List.getD_eq_getElem?_getD, List.getElem?_eq_getElem hk]
      rfl

/-- C1 (witness): the amended rotation law at `[1,2,3,4,5]`, anchor 3,
`max_lines 4` (the spec's own example, whose output order is `[4,5,1,2]`). -/
theorem rotate_rotation_law_witness :
    (rotateItemsFromAnchor ([1, 2, 3, 4, 5] : List ℕ) 3 4).length =
        (min (4 : ℤ) ((([1, 2, 3, 4, 5] : List ℕ).length : ℤ))).toNat ∧
    (rotateItemsFromAnchor ([1, 2, 3, 4, 5] : List ℕ) 3 4)[0]? =
        ([1, 2, 3, 4, 5] : List ℕ)[((3 + ((0 : ℕ) : ℤ)) % (([1, 2, 3, 4, 5] : List ℕ).length : ℤ)).toNat]? := by
  have h := rotate_rotation_law ([1, 2, 3, 4, 5] : List ℕ) 3 4 (by decide) (by decide)
  exact ⟨h.1, h.2 0 (by decide)⟩

/-- C8: an out-of-bounds anchor (negative or `≥` the length) is treated as 0:
the rotation returns exactly what it returns for anchor 0 (and, being a total
function, never raises). -/
theorem rotate_oob_anchor {α : Type} (items : List α) (a limit : ℤ)
    (h : a < 0 ∨ ((items.length : ℤ) ≤ a)) :
    rotateItemsFromAnchor items a limit = rotateItemsFromAnchor items 0 limit := by
  match items with
  | [] => rfl
  | x :: xs =>
    have hzero : ¬((0 : ℤ) < 0 ∨ ((x :: xs).length : ℤ) ≤ 0) := by
      push_neg
      refine ⟨le_refl 0, ?_⟩
      exact_mod_cast Nat.succ_pos xs.length
    simp only [rotateItemsFromAnchor, if_pos h, if_neg hzero]

/-- C8 (witness): a negative anchor on `[7, 8]` behaves like anchor 0. -/
theorem rotate_oob_anchor_witness :
    rotateItemsFromAnchor ([7, 8] : List ℕ) (-3) 2 = rotateItemsFromAnchor ([7, 8] : List ℕ) 0 2 :=
  rotate_oob_anchor ([7, 8] : List ℕ) (-3) 2 (Or.inl (by decide))

/-- The head of `dropWhile q` fails `q`. -/
theorem dropWhile_head_false (q : Char → Bool) :
    ∀ (l : List Char) (d : Char) (ds : List Char), l.dropWhile q = d :: ds → q d = false := by
  intro l
  induction l with
  | nil =>
    intro d ds hyp
    simp [List.dropWhile] at hyp
  | cons c cs ih =>
    intro d ds hyp
    by_cases hc : q c = true
    · rw [List.dropWhile_cons_of_pos hc] at hyp
      exact ih d ds hyp
    · rw [List.dropWhile_cons_of_neg hc] at hyp
      cases hyp
      exact Bool.eq_false_iff.mpr hc

/-- Concatenating the runs produced by `tokenizeAux` gives back the input. -/
theorem tokenizeAux_flatten (p : Char → Bool) :
    ∀ (fuel : ℕ) (l : List Char), l.length ≤ fuel →
      (tokenizeAux p fuel l).flatten = l := by
  intro fuel
  induction fuel with
  | zero =>
    intro l hl
    match l with
    | [] => rfl
  | succ f ih =>
    intro l hl
    match l with
    | [] => rfl
    | c :: cs =>
      have hlen : (cs.dropWhile (fun d => p d == p c)).length ≤ f := by
        have := (List.dropWhile_sublist (l := cs) (fun d => p d == p c)).length_le
        simp only [List.length_cons] at hl
        omega
      simp only [tokenizeAux, List.flatten_cons, ih _ hlen, List.cons_append]
      rw [List.takeWhile_append_dropWhile]

/-- Every run produced by `tokenizeAux` is non-empty and homogeneous: all its
characters have the same `p`-class as its first character. -/
theorem tokenizeAux_homog (p : Char → Bool) :
    ∀ (fuel : ℕ) (l : List Char), l.length ≤ fuel →
      ∀ t ∈ tokenizeAux p fuel l, t ≠ [] ∧ ∀ c ∈ t, p c = p (t.headD ' ') := by
  intro fuel
  induction fuel with
  | zero =>
    intro l hl t ht
    match l with
    | [] => simp [tokenizeAux] at ht
  | succ f ih =>
    intro l hl t ht
    match l with
    | [] => simp [tokenizeAux] at ht
    | c :: cs =>
      simp only [tokenizeAux, List.mem_cons] at ht
      rcases ht with ht | ht
      · subst ht
        refine ⟨by simp, ?_⟩
        intro d hd
        simp only [List.headD_cons]
        rcases List.mem_cons.mp hd with hd | hd
        · rw [hd]
        · have := List.mem_takeWhile_imp hd
          exact eq_of_beq this
      · have hlen : (cs.dropWhile (fun d => p d == p c)).length ≤ f := by
          have := (List.dropWhile_sublist (l := cs) (fun d => p d == p c)).length_le
          simp only [List.length_cons] at hl
          omega
        exact ih _ hlen t ht

/-- Adjacent runs produced by `tokenizeAux` have different `p`-classes. -/
theorem tokenizeAux_chain (p : Char → Bool) :
    ∀ (fuel : ℕ) (l : List Char), l.length ≤ fuel →
      List.Chain' (fun t u => p (t.headD ' ') ≠ p (u.headD ' ')) (tokenizeAux p fuel l) := by
  intro fuel
  induction fuel with
  | zero =>
    intro l hl
    match l with
    | [] => simp [tokenizeAux]
  | succ f ih =>
    intro l hl
    match l with
    | [] => simp [tokenizeAux]
    | c :: cs =>
      have hlen : (cs.dropWhile (fun d => p d == p c)).length ≤ f := by
        have := (List.dropWhile_sublist (l := cs) (fun d => p d == p c)).length_le
        simp only [List.length_cons] at hl
        omega
      simp only [tokenizeAux]
      refine List.chain'_cons'.mpr ⟨?_, ih _ hlen⟩
      intro u hu
      match hrest : cs.dropWhile (fun d => p d == p c) with
      | [] =>
        rw [hrest] at hu
        match f with
        | 0 => simp [tokenizeAux] at hu
        | _ + 1 => simp [tokenizeAux] at hu
      | d :: ds =>
        rw [hrest] at hu hlen
        match f with
        | 0 => simp at hlen
        | f1 + 1 =>
          simp only [tokenizeAux, List.head?_cons, Option.mem_def, Option.some_inj] at hu
          have hd : (p d == p c) = false := dropWhile_head_false _ cs d ds hrest
          subst hu
          simp only [List.headD_cons]
          intro hcontra
          rw [hcontra] at hd
          simp at hd

/-- C6: the tokenizer splits a line into non-empty runs, each homogeneous in
whitespace-class, with adjacent runs of different classes (i.e. the runs are
maximal), and concatenating all runs reproduces the original line exactly. -/
theorem tokenize_runs (l : List Char) :
    (tokenize l).flatten = l ∧
    (∀ t ∈ tokenize l, t ≠ [] ∧ ∀ c ∈ t, pyIsSpace c = pyIsSpace (t.headD ' ')) ∧
    List.Chain' (fun t u => pyIsSpace (t.headD ' ') ≠ pyIsSpace (u.headD ' ')) (tokenize l) :=
  ⟨tokenizeAux_flatten pyIsSpace l.length l le_rfl,
   tokenizeAux_homog pyIsSpace l.length l le_rfl,
   tokenizeAux_chain pyIsSpace l.length l le_rfl⟩

/-- C6 (witness): reconstruction and homogeneity at the concrete line
`"mov eax"`, whose runs are `["mov", " ", "eax"]`. -/
theorem tokenize_runs_witness :
    (tokenize "mov eax".data).flatten = "mov eax".data ∧ "mov".data ≠ [] := by
  refine ⟨(tokenize_runs "mov eax".data).1, ?_⟩
  exact ((tokenize_runs "mov eax".data).2.1 "mov".data (by decide)).1

/-- Every brick emitted by the per-line token loop carries the line's text and
number, is alive, sits at the row top with the row height, has width
`max 6 (max 1 (adv label))`, and its left edge is the cursor position before
its token (the start cursor plus the advances of all earlier tokens); moreover
its own advance still fits before the right margin. -/
theorem lineBricks_mem (adv : String → ℤ) (codeRight : ℤ) (lineNo : ℕ) (fullText : String)
    (yTop : ℤ) (lineH : ℕ) :
    ∀ (ts : List String) (x : ℤ) (b : Brick),
      b ∈ lineBricks adv codeRight lineNo fullText yTop lineH x ts →
      b.fullText = fullText ∧ b.lineNo = lineNo ∧ b.alive = true ∧
      b.rect.y = (yTop : ℚ) ∧ b.rect.h = ((lineH : ℕ) : ℚ) ∧
      b.rect.w = ((max 6 (max 1 (adv b.label)) : ℤ) : ℚ) ∧
      ∃ k : ℕ, ∃ hk : k < ts.length, ts.get ⟨k, hk⟩ = b.label ∧
        b.rect.x = ((x + sumAdv adv (ts.take k) : ℤ) : ℚ) ∧
        x + sumAdv adv (ts.take (k + 1)) ≤ codeRight := by
  intro ts
  induction ts with
  | nil =>
    intro x b hb
    simp [lineBricks] at hb
  | cons t ts ih =>
    intro x b hb
    simp only [lineBricks] at hb
    by_cases hfit : codeRight < x + max 1 (adv t)
    · rw [if_pos hfit] at hb
      simp at hb
    · rw [if_neg hfit] at hb
      rcases List.mem_append.mp hb with hb | hb
      · have hvis : tokenVisible t = true := by
          by_contra hv
          rw [Bool.not_eq_true] at hv
          rw [if_neg (by simp [hv])] at hb
          simp at hb
        rw [if_pos hvis] at hb
        simp only [List.mem_singleton] at hb
        subst hb
        refine ⟨rfl, rfl, rfl, rfl, rfl, rfl, 0, by simp, rfl, ?_, ?_⟩
        · simp [sumAdv]
        · simp only [List.take_succ_cons, List.take_zero, sumAdv, List.map_cons,
            List.map_nil, List.sum_cons, List.sum_nil, add_zero]
          exact not_lt.mp hfit
      · obtain ⟨h1, h2, h3, h4, h5, h6, k, hk, hlab, hx, hfits⟩ := ih (x + max 1 (adv t)) b hb
        refine ⟨h1, h2, h3, h4, h5, h6, k + 1, by simpa using Nat.succ_lt_succ hk, ?_, ?_, ?_⟩
        · simpa using hlab
        · rw [hx]
          congr 1
          simp only [List.take_succ_cons, sumAdv, List.map_cons, List.sum_cons]
          ring
        · simp only [List.take_succ_cons, sumAdv, List.map_cons, List.sum_cons] at hfits ⊢
          omega

/-- C5 (counterexample): the emitted rect width is not `max 1 (pixel width)`:
with every token 2 px wide, the single brick for the line `"ab"` has width 6,
not `max 1 2 = 2`; and with a 1000 px token at viewport width 640 the token is
**not** emitted at all (the claim says it still would be). -/
theorem buildBricks_brick_cex :
    ((buildBricks 800 520 12 10 (fun _ => 2) [{ lineNo := 1, fullText := "ab" }]).1.map
        (fun b => b.rect.w)) = [6] ∧
    ¬((6 : ℚ) = ((max 1 ((fun (_ : String) => (2 : ℤ)) "ab") : ℤ) : ℚ)) ∧
    (buildBricks 640 520 12 10 (fun _ => 1000) [{ lineNo := 1, fullText := "abc" }]).1 = [] := by
  exact ⟨by decide, by decide, by decide⟩

/-- C5 (amended): every emitted brick has left edge equal to the horizontal
cursor position before its token (70 plus the advances of the earlier tokens
of its line), top equal to its row top `64 + i * line_h`, height equal to the
row height, and width `max(6, max(1, token pixel width))` — the 1 px floor
applies to the cursor advance while the rect width floor is 6 px; a token
whose advance would cross the right margin is not emitted (even the first of
its line), ending the line. -/
theorem buildBricks_brick_spec (w h fmHeight fmAscent : ℕ) (adv : String → ℤ)
    (labels : List LineInfo) (b : Brick)
    (hb : b ∈ (buildBricks w h fmHeight fmAscent adv labels).1) :
    b.rect.w = ((max 6 (max 1 (adv b.label)) : ℤ) : ℚ) ∧
    b.rect.h = ((max 16 (fmHeight + 2) : ℕ) : ℚ) ∧
    b.alive = true ∧
    (∃ i : ℕ, b.rect.y = ((64 + (i : ℤ) * ((max 16 (fmHeight + 2) : ℕ) : ℤ) : ℤ) : ℚ)) ∧
    ∃ k : ℕ, ∃ hk : k < (strTokens b.fullText).length,
      (strTokens b.fullText).get ⟨k, hk⟩ = b.label ∧
      b.rect.x = ((70 + sumAdv adv ((strTokens b.fullText).take k) : ℤ) : ℚ) ∧
      70 + sumAdv adv ((strTokens b.fullText).take (k + 1)) ≤ ((max 640 w : ℕ) : ℤ) - 18 := by
  simp only [buildBricks, List.mem_flatMap] at hb
  obtain ⟨pr, hpr, hbl⟩ := hb
  obtain ⟨h1, h2, h3, h4, h5, h6, k, hk, hlab, hx, hfits⟩ :=
    lineBricks_mem adv _ _ _ _ _ _ 70 b hbl
  rw [h1]
  exact ⟨h6, h5, h3, ⟨pr.1, h4⟩, k, hk, hlab, hx, hfits⟩

/-- C5 (witness): the amended rect law at the concrete layout
`buildBricks 800 520 12 10 (fun _ => 2) [(1, "ab")]`, whose single brick is
`bTok` with rect `(70, 64, 6, 16)`. -/
theorem buildBricks_brick_spec_witness :
    bTok.rect.w = ((max 6 (max 1 ((fun (_ : String) => (2 : ℤ)) bTok.label)) : ℤ) : ℚ) ∧
    bTok.rect.h = ((max 16 (12 + 2) : ℕ) : ℚ) := by
  have h := buildBricks_brick_spec 800 520 12 10 (fun _ => 2)
    [{ lineNo := 1, fullText := "ab" }] bTok (by decide)
  exact ⟨h.1, h.2.1⟩

/-- The per-line loop emits a prefix that only grows when the right margin
moves right. -/
theorem lineBricks_mono_cr (adv : String → ℤ) (lineNo : ℕ) (fullText : String)
    (yTop : ℤ) (lineH : ℕ) :
    ∀ (ts : List String) (x cr1 cr2 : ℤ), cr1 ≤ cr2 →
      (lineBricks adv cr1 lineNo fullText yTop lineH x ts).length ≤
      (lineBricks adv cr2 lineNo fullText yTop lineH x ts).length := by
  intro ts
  induction ts with
  | nil =>
    intro x cr1 cr2 hcr
    simp [lineBricks]
  | cons t ts ih =>
    intro x cr1 cr2 hcr
    simp only [lineBricks]
    by_cases h1 : cr1 < x + max 1 (adv t)
    · rw [if_pos h1]
      simp
    · have h2 : ¬(cr2 < x + max 1 (adv t)) := not_lt.mpr (le_trans (not_lt.mp h1) hcr)
      rw [if_neg h1, if_neg h2]
      simp only [List.length_append]
      exact Nat.add_le_add_left (ih (x + max 1 (adv t)) cr1 cr2 hcr) _

/-- C9: widening the viewport can only add bricks — for any single line the
token loop at right margin `max(640, w1) - 18` emits no more bricks than at
`max(640, w2) - 18` when `w1 ≤ w2`, and consequently the whole brick list of
`_build_bricks` is no longer at width `w1` than at width `w2` (the vertical
row budget depends only on the height). -/
theorem buildBricks_width_mono (w1 w2 : ℕ) (hw : w1 ≤ w2) (h fmHeight fmAscent : ℕ)
    (adv : String → ℤ) (lineNo : ℕ) (fullText : String) (yTop : ℤ) (lineH : ℕ)
    (ts : List String) (x : ℤ) (labels : List LineInfo) :
    (lineBricks adv (((max 640 w1 : ℕ) : ℤ) - 18) lineNo fullText yTop lineH x ts).length ≤
      (lineBricks adv (((max 640 w2 : ℕ) : ℤ) - 18) lineNo fullText yTop lineH x ts).length ∧
    (buildBricks w1 h fmHeight fmAscent adv labels).1.length ≤
      (buildBricks w2 h fmHeight fmAscent adv labels).1.length := by
  have hcr : (((max 640 w1 : ℕ) : ℤ) - 18) ≤ (((max 640 w2 : ℕ) : ℤ) - 18) := by
    have : (max 640 w1 : ℕ) ≤ (max 640 w2 : ℕ) := max_le_max le_rfl hw
    omega
  constructor
  · exact lineBricks_mono_cr adv lineNo fullText yTop lineH ts x _ _ hcr
  · simp only [buildBricks, List.length_flatMap]
    apply List.sum_le_sum
    intro pr hpr
    exact lineBricks_mono_cr adv _ _ _ _ _ 70 _ _ hcr

/-- C9 (witness): at the concrete line `"a b"` with every token 300 px wide,
width 640 emits 1 brick and width 1200 emits 2. -/
theorem buildBricks_width_mono_witness :
    (lineBricks (fun _ => 300) (((max 640 640 : ℕ) : ℤ) - 18) 1 "a b" 64 16 70
        (strTokens "a b")).length ≤
      (lineBricks (fun _ => 300) (((max 640 1200 : ℕ) : ℤ) - 18) 1 "a b" 64 16 70
        (strTokens "a b")).length ∧
    (buildBricks 640 520 12 10 (fun _ => 300) [{ lineNo := 1, fullText := "a b" }]).1.length ≤
      (buildBricks 1200 520 12 10 (fun _ => 300) [{ lineNo := 1, fullText := "a b" }]).1.length :=
  buildBricks_width_mono 640 1200 (by decide) 520 12 10 (fun _ => 300) 1 "a b" 64 16
    (strTokens "a b") 70 [{ lineNo := 1, fullText := "a b" }]

/-- C10: `_find_hover_brick` returns `None` exactly when no alive brick's rect
contains the point, and whenever it returns a brick, that brick is alive, its
rect contains the point, and every strictly earlier brick in iteration order
fails the test — in particular a destroyed brick is never returned. -/
theorem findHoverBrick_spec (bricks : List Brick) (p : ℚ × ℚ) :
    (findHoverBrick bricks p = none ↔
      ∀ b ∈ bricks, ¬(b.alive = true ∧ b.rect.containsPoint p = true)) ∧
    ∀ b : Brick, findHoverBrick bricks p = some b →
      b.alive = true ∧ b.rect.containsPoint p = true ∧
      ∃ i : ℕ, ∃ hi : i < bricks.length, bricks.get ⟨i, hi⟩ = b ∧
        ∀ j : ℕ, ∀ hj : j < bricks.length, j < i →
          ¬((bricks.get ⟨j, hj⟩).alive = true ∧
            (bricks.get ⟨j, hj⟩).rect.containsPoint p = true) := by
  induction bricks with
  | nil =>
    constructor
    · simp [findHoverBrick]
    · intro b hb
      simp [findHoverBrick] at hb
  | cons c cs ih =>
    by_cases hc : (c.alive && c.rect.containsPoint p) = true
    · have hfind : findHoverBrick (c :: cs) p = some c :=
        List.find?_cons_of_pos _ hc
      rw [Bool.and_eq_true] at hc
      constructor
      · rw [hfind]
        simp only [reduceCtorEq, false_iff, not_forall]
        push_neg
        exact ⟨c, List.mem_cons_self c cs, hc⟩
      · intro b hb
        rw [hfind, Option.some_inj] at hb
        subst hb
        exact ⟨hc.1, hc.2, 0, Nat.succ_pos _, rfl, by omega⟩
    · have hfind : findHoverBrick (c :: cs) p = findHoverBrick cs p :=
        List.find?_cons_of_neg _ hc
      rw [Bool.and_eq_true] at hc
      push_neg at hc
      constructor
      · rw [hfind]
        rw [ih.1]
        constructor
        · intro hall b hb
          rcases List.mem_cons.mp hb with hb | hb
          · subst hb
            intro hcontra
            exact hc hcontra.1 hcontra.2
          · exact hall b hb
        · intro hall b hb
          exact hall b (List.mem_cons_of_mem c hb)
      · intro b hb
        rw [hfind] at hb
        obtain ⟨h1, h2, i, hi, hget, hearlier⟩ := ih.2 b hb
        refine ⟨h1, h2, i + 1, Nat.succ_lt_succ hi, hget, ?_⟩
        intro j hj hji
        match j with
        | 0 =>
          intro hcontra
          exact hc hcontra.1 hcontra.2
        | j1 + 1 =>
          have hj1 : j1 < cs.length := Nat.lt_of_succ_lt_succ hj
          exact hearlier j1 hj1 (Nat.lt_of_succ_lt_succ hji)

/-- C10 (witness): with a dead brick (whose rect contains the point) ahead of
a live one, the hover query skips the dead brick and returns the live one. -/
theorem findHoverBrick_spec_witness :
    bA.alive = true ∧ bA.rect.containsPoint ((6 : ℚ), (6 : ℚ)) = true := by
  have h := (findHoverBrick_spec [bDead, bA] ((6 : ℚ), (6 : ℚ))).2 bA (by decide)
  exact ⟨h.1, h.2.1⟩

/-- Zipping a brick list with itself exhibits no alive-to-dead flip. -/
theorem countFlips_zip_self (l : List Brick) :
    (l.zip l).countP (fun q => q.1.alive && !q.2.alive) = 0 := by
  induction l with
  | nil => rfl
  | cons b bs ih =>
    simp only [List.zip_cons_cons, List.countP_cons, ih]
    simp

/-- C3: the brick-collision loop preserves the brick count and flips at most
one brick from alive to dead per call; the flipped brick (when any) is the
first brick in iteration order that is alive and intersects the ball's box,
every earlier brick fails that test, the score grows by exactly 10, `vy` is
negated, and every other brick is left untouched (the scan stops); if no alive
brick intersects, nothing changes at all. -/
theorem brickLoop_spec (brect : Rect) (score : ℤ) (vy : ℚ) (bricks : List Brick) :
    (brickLoop brect score vy bricks).1.length = bricks.length ∧
    (bricks.zip (brickLoop brect score vy bricks).1).countP
        (fun q => q.1.alive && !q.2.alive) ≤ 1 ∧
    ((∀ b ∈ bricks, hitB brect b = false) →
        brickLoop brect score vy bricks = (bricks, score, vy)) ∧
    ∀ i : ℕ, ∀ hi : i < bricks.length, ∀ hi2 : i < (brickLoop brect score vy bricks).1.length,
      (bricks.get ⟨i, hi⟩).alive = true →
      ((brickLoop brect score vy bricks).1.get ⟨i, hi2⟩).alive = false →
        hitB brect (bricks.get ⟨i, hi⟩) = true ∧
        (∀ j : ℕ, ∀ hj : j < bricks.length, j < i → hitB brect (bricks.get ⟨j, hj⟩) = false) ∧
        (brickLoop brect score vy bricks).2.1 = score + 10 ∧
        (brickLoop brect score vy bricks).2.2 = -vy ∧
        ∀ j : ℕ, ∀ hj : j < bricks.length, ∀ hj2 : j < (brickLoop brect score vy bricks).1.length,
          j ≠ i → (brickLoop brect score vy bricks).1.get ⟨j, hj2⟩ = bricks.get ⟨j, hj⟩ := by
  induction bricks with
  | nil =>
    refine ⟨rfl, by simp [brickLoop], fun _ => rfl, ?_⟩
    intro i hi
    exact absurd hi (Nat.not_lt_zero i)
  | cons b bs ih =>
    by_cases hb : hitB brect b = true
    · have heq : brickLoop brect score vy (b :: bs) =
          ({ b with alive := false } :: bs, score + 10, -vy) := by
        simp [brickLoop, hb]
      rw [heq]
      have halive : b.alive = true := by
        have hh := hb
        simp only [hitB, Bool.and_eq_true] at hh
        exact hh.1
      refine ⟨by simp, ?_, ?_, ?_⟩
      · simp only [List.zip_cons_cons, List.countP_cons, countFlips_zip_self]
        simp [halive]
      · intro hall
        have := hall b (List.mem_cons_self b bs)
        rw [hb] at this
        cases this
      · intro i hi hi2 hal hdead
        match i with
        | 0 =>
          refine ⟨hb, by omega, rfl, rfl, ?_⟩
          intro j hj hj2 hji
          match j with
          | 0 => exact absurd rfl hji
          | j1 + 1 => rfl
        | i1 + 1 =>
          simp only [List.get_cons_succ] at hal hdead
          rw [hal] at hdead
          cases hdead
    · have heq : brickLoop brect score vy (b :: bs) =
          (b :: (brickLoop brect score vy bs).1, (brickLoop brect score vy bs).2) := by
        simp [brickLoop, hb]
      have hbf : hitB brect b = false := by
        simpa using hb
      rw [heq]
      refine ⟨by simp [ih.1], ?_, ?_, ?_⟩
      · simp only [List.zip_cons_cons, List.countP_cons]
        have hpred : (b.alive && !b.alive) = false := by
          simp
        simp only [hpred, if_false]
        simpa using ih.2.1
      · intro hall
        have hrec := ih.2.2.1 (fun b' hb' => hall b' (List.mem_cons_of_mem b hb'))
        rw [hrec]
      · intro i hi hi2 hal hdead
        match i with
        | 0 =>
          rw [show ((b :: (brickLoop brect score vy bs).1).get ⟨0, hi2⟩) = b from rfl] at hdead
          rw [show ((b :: bs).get ⟨0, hi⟩) = b from rfl] at hal
          rw [hal] at hdead
          cases hdead
        | i1 + 1 =>
          have hi1 : i1 < bs.length := Nat.lt_of_succ_lt_succ hi
          have hi12 : i1 < (brickLoop brect score vy bs).1.length := Nat.lt_of_succ_lt_succ hi2
          obtain ⟨hhit, hearlier, hscore, hvy, hunch⟩ := ih.2.2.2 i1 hi1 hi12 hal hdead
          refine ⟨hhit, ?_, hscore, hvy, ?_⟩
          · intro j hj hji
            match j with
            | 0 => exact hbf
            | j1 + 1 => exact hearlier j1 (Nat.lt_of_succ_lt_succ hj) (Nat.lt_of_succ_lt_succ hji)
          · intro j hj hj2 hji
            match j with
            | 0 => rfl
            | j1 + 1 =>
              exact hunch j1 (Nat.lt_of_succ_lt_succ hj) (Nat.lt_of_succ_lt_succ hj2)
                (fun hcontra => hji (by rw [hcontra]))

/-- C3 (witness): with two overlapping live bricks, the loop kills only the
first, adds exactly 10 to the score, and negates `vy`. -/
theorem brickLoop_spec_witness :
    hitB rectC3 bA = true ∧
    (brickLoop rectC3 0 5 [bA, bB]).2.1 = 0 + 10 ∧
    (brickLoop rectC3 0 5 [bA, bB]).2.2 = -5 := by
  have h := (brickLoop_spec rectC3 0 5 [bA, bB]).2.2.2 0 (by decide) (by decide)
    (by decide) (by decide)
  exact ⟨h.1, h.2.2.1, h.2.2.2.1⟩

/-- The paddle-input step changes only `paddleX`. -/
theorem paddlePhase_fields (w : ℕ) (s : SimState) :
    (paddlePhase w s).launched = s.launched ∧ (paddlePhase w s).gameOver = s.gameOver ∧
    (paddlePhase w s).lives = s.lives ∧ (paddlePhase w s).ballR = s.ballR ∧
    (paddlePhase w s).paddleW = s.paddleW :=
  ⟨rfl, rfl, rfl, rfl, rfl⟩

/-- The in-play physics step never touches `lives`, `ballR`, `paddleW` or
`gameOver`. -/
theorem physicsPhase_fields (w h : ℕ) (fresh : List Brick) (s : SimState) :
    (physicsPhase w h fresh s).lives = s.lives ∧
    (physicsPhase w h fresh s).ballR = s.ballR ∧
    (physicsPhase w h fresh s).paddleW = s.paddleW ∧
    (physicsPhase w h fresh s).gameOver = s.gameOver := by
  simp only [physicsPhase]
  split
  · exact ⟨rfl, rfl, rfl, rfl⟩
  · exact ⟨rfl, rfl, rfl, rfl⟩

/-- The bottom-fall step never touches `paddleW`. -/
theorem bottomPhase_paddleW (w h : ℕ) (s : SimState) :
    (bottomPhase w h s).paddleW = s.paddleW := by
  simp only [bottomPhase, resetBallOnPaddle]
  split
  · split <;> rfl
  · rfl

/-- C7 (counterexample): in the game-over state `sOver` the left key is held,
and a tick moves the paddle from 300 to 291 — paddle position is *not* frozen
while `GameOver`. -/
theorem tick_gameover_frozen_cex :
    (tick 800 520 [] sOver).paddleX ≠ sOver.paddleX := by decide

/-- C7 (amended): while `game_over` is set, a tick performs no physics
integration and leaves the ball position and velocity, the bricks, the score,
the lives, and the launch/game-over flags unchanged; paddle input however is
still applied (the paddle may move), and only rendering continues. -/
theorem tick_gameover_frozen (w h : ℕ) (fresh : List Brick) (s : SimState)
    (hG : s.gameOver = true) :
    (tick w h fresh s).ballX = s.ballX ∧ (tick w h fresh s).ballY = s.ballY ∧
    (tick w h fresh s).ballVx = s.ballVx ∧ (tick w h fresh s).ballVy = s.ballVy ∧
    (tick w h fresh s).bricks = s.bricks ∧ (tick w h fresh s).score = s.score ∧
    (tick w h fresh s).lives = s.lives ∧ (tick w h fresh s).launched = s.launched ∧
    (tick w h fresh s).gameOver = true := by
  have h1 : (paddlePhase w s).gameOver = true := hG
  have hcond : ¬((paddlePhase w s).launched = false ∧ (paddlePhase w s).gameOver = false) := by
    intro hc
    have := hc.2
    rw [h1] at this
    cases this
  simp only [tick]
  rw [if_neg hcond, if_pos h1]
  exact ⟨rfl, rfl, rfl, rfl, rfl, rfl, rfl, rfl, h1⟩

/-- C7 (witness): the frozen fields at the concrete game-over state `sOver`. -/
theorem tick_gameover_frozen_witness :
    (tick 800 520 [] sOver).score = sOver.score ∧
    (tick 800 520 [] sOver).lives = sOver.lives ∧
    (tick 800 520 [] sOver).ballX = sOver.ballX := by
  have h := tick_gameover_frozen 800 520 [] sOver rfl
  exact ⟨h.2.2.2.2.2.1, h.2.2.2.2.2.2.1, h.1⟩

/-- C2: when the ball crosses the bottom boundary while in play (the post-
physics ball top is below the effective height), a tick decrements `lives`;
with one life left it sets `lives = 0` and `game_over = true`; with two or
more it leaves `game_over` unset, clears `launched` (waiting for launch),
re-centres the ball above the paddle, and resets the velocity to
`(3.8, -4.6)` (i.e. `(19/5, -(23/5))` as rationals). -/
theorem tick_bottom_loss (w h : ℕ) (fresh : List Brick) (s : SimState)
    (hL : s.launched = true) (hG : s.gameOver = false)
    (hdrop : (physicsPhase w h fresh (paddlePhase w s)).ballY - s.ballR > max 360 (h : ℚ)) :
    (s.lives = 1 → (tick w h fresh s).lives = 0 ∧ (tick w h fresh s).gameOver = true) ∧
    (2 ≤ s.lives →
      (tick w h fresh s).lives = s.lives - 1 ∧
      (tick w h fresh s).launched = false ∧
      (tick w h fresh s).gameOver = false ∧
      (tick w h fresh s).ballX = (tick w h fresh s).paddleX + s.paddleW / 2 ∧
      (tick w h fresh s).ballY = max 300 (h : ℚ) - 42 ∧
      (tick w h fresh s).ballVx = 19 / 5 ∧
      (tick w h fresh s).ballVy = -(23 / 5)) := by
  have hL1 : (paddlePhase w s).launched = true := hL
  have hG1 : (paddlePhase w s).gameOver = false := hG
  have hcond : ¬((paddlePhase w s).launched = false ∧ (paddlePhase w s).gameOver = false) := by
    intro hc
    have := hc.1
    rw [hL1] at this
    cases this
  have hcond2 : ¬((paddlePhase w s).gameOver = true) := by
    intro hc
    rw [hG1] at hc
    cases hc
  have htick : tick w h fresh s =
      bottomPhase w h (physicsPhase w h fresh (paddlePhase w s)) := by
    simp only [tick]
    rw [if_neg hcond, if_neg hcond2]
  have hpf := physicsPhase_fields w h fresh (paddlePhase w s)
  have htL : (physicsPhase w h fresh (paddlePhase w s)).lives = s.lives := hpf.1
  have htR : (physicsPhase w h fresh (paddlePhase w s)).ballR = s.ballR := hpf.2.1
  have htW : (physicsPhase w h fresh (paddlePhase w s)).paddleW = s.paddleW := hpf.2.2.1
  have htG : (physicsPhase w h fresh (paddlePhase w s)).gameOver = false := by
    rw [hpf.2.2.2]
    exact hG1
  have hdrop2 : (physicsPhase w h fresh (paddlePhase w s)).ballY -
      (physicsPhase w h fresh (paddlePhase w s)).ballR > max 360 (h : ℚ) := by
    rw [htR]
    exact hdrop
  rw [htick]
  simp only [bottomPhase]
  rw [if_pos hdrop2]
  constructor
  · intro h1
    have hlast : (physicsPhase w h fresh (paddlePhase w s)).lives - 1 ≤ 0 := by omega
    rw [if_pos hlast]
    refine ⟨?_, rfl⟩
    show (physicsPhase w h fresh (paddlePhase w s)).lives - 1 = 0
    omega
  · intro h2
    have hmore : ¬((physicsPhase w h fresh (paddlePhase w s)).lives - 1 ≤ 0) := by omega
    rw [if_neg hmore]
    refine ⟨?_, rfl, ?_, ?_, rfl, rfl, rfl⟩
    · show (physicsPhase w h fresh (paddlePhase w s)).lives - 1 = s.lives - 1
      omega
    · show (physicsPhase w h fresh (paddlePhase w s)).gameOver = false
      exact htG
    · rw [← htW]
      rfl

/-- C2 (witness): both bottom-fall branches at the concrete falling states
`sDrop2` (two lives) and `sDrop1` (one life). -/
theorem tick_bottom_loss_witness :
    (tick 800 520 [] sDrop2).lives = sDrop2.lives - 1 ∧
    (tick 800 520 [] sDrop2).launched = false ∧
    (tick 800 520 [] sDrop2).ballVy = -(23 / 5) ∧
    (tick 800 520 [] sDrop1).lives = 0 ∧
    (tick 800 520 [] sDrop1).gameOver = true := by
  have h2 := (tick_bottom_loss 800 520 [] sDrop2 rfl rfl (by decide)).2 (by decide)
  have h1 := (tick_bottom_loss 800 520 [] sDrop1 rfl rfl (by decide)).1 rfl
  exact ⟨h2.1, h2.2.1, h2.2.2.2.2.2.2, h1.1, h1.2⟩

/-- `_reset_ball_on_paddle` re-establishes the paddle clamp (with the raw
widget width, as in the source). -/
theorem resetBallOnPaddle_paddle_bound (w h : ℕ) (s : SimState)
    (hw : (150 : ℚ) ≤ (w : ℚ)) (hpw : s.paddleW = 130) :
    10 ≤ (resetBallOnPaddle w h s).paddleX ∧
    (resetBallOnPaddle w h s).paddleX ≤ (w : ℚ) - 130 - 10 := by
  have hgoal : (resetBallOnPaddle w h s).paddleX =
      max 10 (min s.paddleX ((w : ℚ) - s.paddleW - 10)) := rfl
  rw [hgoal, hpw]
  constructor
  · exact le_max_left _ _
  · apply max_le
    · linarith
    · exact min_le_right _ _

/-- The physics step keeps the paddle inside the clamp interval. -/
theorem physicsPhase_paddle_bound (w h : ℕ) (fresh : List Brick) (s : SimState)
    (hw : (150 : ℚ) ≤ (w : ℚ)) (hpw : s.paddleW = 130)
    (hb1 : 10 ≤ s.paddleX) (hb2 : s.paddleX ≤ (w : ℚ) - 130 - 10) :
    10 ≤ (physicsPhase w h fresh s).paddleX ∧
    (physicsPhase w h fresh s).paddleX ≤ (w : ℚ) - 130 - 10 := by
  simp only [physicsPhase]
  split
  · exact resetBallOnPaddle_paddle_bound w h _ hw hpw
  · exact ⟨hb1, hb2⟩

/-- The bottom-fall step keeps the paddle inside the clamp interval. -/
theorem bottomPhase_paddle_bound (w h : ℕ) (s : SimState)
    (hw : (150 : ℚ) ≤ (w : ℚ)) (hpw : s.paddleW = 130)
    (hb1 : 10 ≤ s.paddleX) (hb2 : s.paddleX ≤ (w : ℚ) - 130 - 10) :
    10 ≤ (bottomPhase w h s).paddleX ∧ (bottomPhase w h s).paddleX ≤ (w : ℚ) - 130 - 10 := by
  simp only [bottomPhase]
  split
  · split
    · exact ⟨hb1, hb2⟩
    · exact resetBallOnPaddle_paddle_bound w h _ hw hpw
  · exact ⟨hb1, hb2⟩

/-- One tick leaves the paddle inside `[10, w - 130 - 10]` whatever the input
state, as long as the widget is at least 640 wide (its minimum size is 800). -/
theorem tick_paddle_bound (w h : ℕ) (fresh : List Brick) (s : SimState)
    (hw : 640 ≤ w) (hpw : s.paddleW = 130) :
    10 ≤ (tick w h fresh s).paddleX ∧ (tick w h fresh s).paddleX ≤ (w : ℚ) - 130 - 10 := by
  have hwq : (640 : ℚ) ≤ (w : ℚ) := by exact_mod_cast hw
  have h150 : (150 : ℚ) ≤ (w : ℚ) := by linarith
  have hmax : max (640 : ℚ) (w : ℚ) = (w : ℚ) := max_eq_right hwq
  have hpx : (paddlePhase w s).paddleX =
      max 10 (min (if s.rightPressed then
          (if s.leftPressed then s.paddleX - s.paddleSpeed else s.paddleX) + s.paddleSpeed
        else (if s.leftPressed then s.paddleX - s.paddleSpeed else s.paddleX))
        (max 640 (w : ℚ) - s.paddleW - 10)) := rfl
  have hb : 10 ≤ (paddlePhase w s).paddleX ∧
      (paddlePhase w s).paddleX ≤ (w : ℚ) - 130 - 10 := by
    rw [hpx, hmax, hpw]
    constructor
    · exact le_max_left _ _
    · apply max_le
      · linarith
      · exact min_le_right _ _
  have hpw1 : (paddlePhase w s).paddleW = 130 := hpw
  simp only [tick]
  by_cases hc1 : (paddlePhase w s).launched = false ∧ (paddlePhase w s).gameOver = false
  · rw [if_pos hc1]
    exact hb
  · rw [if_neg hc1]
    by_cases hc2 : (paddlePhase w s).gameOver = true
    · rw [if_pos hc2]
      exact hb
    · rw [if_neg hc2]
      have hphys := physicsPhase_paddle_bound w h fresh (paddlePhase w s) h150 hpw1 hb.1 hb.2
      have hpw2 : (physicsPhase w h fresh (paddlePhase w s)).paddleW = 130 := by
        rw [(physicsPhase_fields w h fresh (paddlePhase w s)).2.2.1]
        exact hpw1
      exact bottomPhase_paddle_bound w h _ h150 hpw2 hphys.1 hphys.2

/-- A tick never changes the paddle width. -/
theorem tick_paddleW (w h : ℕ) (fresh : List Brick) (s : SimState) :
    (tick w h fresh s).paddleW = s.paddleW := by
  simp only [tick]
  by_cases hc1 : (paddlePhase w s).launched = false ∧ (paddlePhase w s).gameOver = false
  · rw [if_pos hc1]
    rfl
  · rw [if_neg hc1]
    by_cases hc2 : (paddlePhase w s).gameOver = true
    · rw [if_pos hc2]
      rfl
    · rw [if_neg hc2]
      rw [bottomPhase_paddleW, (physicsPhase_fields w h fresh (paddlePhase w s)).2.2.1]
      rfl

/-- Any non-empty sequence of ticks, with arbitrary held keys and fresh brick
sets at every step, ends with the paddle inside the clamp interval. -/
theorem runTicks_paddle_bound (w h : ℕ) (hw : 640 ≤ w) :
    ∀ (steps : List (Bool × Bool × List Brick)) (s : SimState),
      s.paddleW = 130 → steps ≠ [] →
      10 ≤ (runTicks w h s steps).paddleX ∧
      (runTicks w h s steps).paddleX ≤ (w : ℚ) - 130 - 10 := by
  intro steps
  induction steps with
  | nil =>
    intro s _ hne
    exact absurd rfl hne
  | cons a rest ih =>
    intro s hpw _
    cases rest with
    | nil =>
      exact tick_paddle_bound w h a.2.2 _ hw hpw
    | cons b rest2 =>
      refine ih (tick w h a.2.2 { s with leftPressed := a.1, rightPressed := a.2.1 }) ?_ ?_
      · rw [tick_paddleW]
        exact hpw
      · simp

/-- C4: after any non-empty sequence of ticks with arbitrary move-left /
move-right flags, the paddle's x coordinate lies within
`[margin, viewport_width - paddle_width - margin]` with `margin = 10`
(`viewport_width` being the effective width the simulation clamps with, which
equals the widget width whenever the widget is at least 640 wide — its
minimum size is 800); and `_reset_ball_on_paddle`, the only other operation
that moves the paddle, re-establishes the same clamp. -/
theorem paddle_clamp_invariant (w h : ℕ) (s : SimState)
    (steps : List (Bool × Bool × List Brick))
    (hw : 640 ≤ w) (hpw : s.paddleW = 130) (hne : steps ≠ []) :
    (10 ≤ (runTicks w h s steps).paddleX ∧
      (runTicks w h s steps).paddleX ≤ (w : ℚ) - 130 - 10) ∧
    (10 ≤ (resetBallOnPaddle w h s).paddleX ∧
      (resetBallOnPaddle w h s).paddleX ≤ (w : ℚ) - 130 - 10) := by
  have h150 : (150 : ℚ) ≤ (w : ℚ) := by
    have : (640 : ℚ) ≤ (w : ℚ) := by exact_mod_cast hw
    linarith
  exact ⟨runTicks_paddle_bound w h hw steps s hpw hne,
    resetBallOnPaddle_paddle_bound w h s h150 hpw⟩

/-- C4 (witness): the clamp at the concrete state `sPad` (paddle at 15) after
one tick with the left key held, in an 800-wide widget. -/
theorem paddle_clamp_invariant_witness :
    (10 ≤ (runTicks 800 520 sPad [(true, false, [])]).paddleX ∧
      (runTicks 800 520 sPad [(true, false, [])]).paddleX ≤ ((800 : ℕ) : ℚ) - 130 - 10) ∧
    (10 ≤ (resetBallOnPaddle 800 520 sPad).paddleX ∧
      (resetBallOnPaddle 800 520 sPad).paddleX ≤ ((800 : ℕ) : ℚ) - 130 - 10) :=
  paddle_clamp_invariant 800 520 sPad [(true, false, [])] (by decide) rfl (by decide)

end CodeBreak
